import Mathlib

/-!
# The dashboard scripts under `webclient/static/js`

A shallow embedding of the mapping suggester `suggestMappings`, its helper
`hasKey`, the submission and edit paths of the import form (`import.js`), the
validation of `saveTemplate` (`templates.js`), and `formatDate` and
`animateValue` (`dashboard.js`), followed by the properties proved about them.

Modelling conventions

* A value handed to the script by `response.json()` is a `JSValue`: the JSON
  value tree, plus `undefined`, which `data[0]` yields on an empty array.
  Number literals are carried as rationals; the code studied here never
  inspects them.
* An object is its list of own properties in insertion order.  Every parsed
  object has `Object.prototype` as its prototype and every parsed array has
  `Array.prototype`, then `Object.prototype`.
* A JavaScript `throw` is the `Except.error` result.
* The page markup is not among the sources.  The form is taken to carry the six
  inputs `map_<field>` the script addresses by id, each holding a string.
* An `async` handler is followed up to the request it sends; what it does
  with the response is not modelled.
* Arithmetic of `dashboard.js` is exact: integers for millisecond differences,
  rationals for the animation counter.
-/

namespace ImportJs

/-! ## JavaScript values -/

/-- Exceptions the modelled fragment of JavaScript can raise. -/
inductive JSError where
  | typeError
  deriving DecidableEq, Repr

/-- Values produced by parsing a JSON response, plus `undefined`. -/
inductive JSValue where
  | undefined
  | null
  | bool (b : Bool)
  | number (n : ℚ)
  | string (s : String)
  | array (items : List JSValue)
  | object (props : List (String × JSValue))

/-- The `typeof` operator. -/
def typeof : JSValue → String
  | .undefined => "undefined"
  | .null => "object"
  | .bool _ => "boolean"
  | .number _ => "number"
  | .string _ => "string"
  | .array _ => "object"
  | .object _ => "object"

/-- The test `v === null`. -/
def isNull : JSValue → Bool
  | .null => true
  | _ => false

/-- The test `Array.isArray(v)`. -/
def isArray : JSValue → Bool
  | .array _ => true
  | _ => false

/-- The element read `data[0]` on an array value; `undefined` when there is none.
On a value that is not an array the script never evaluates it. -/
def elementZero : JSValue → JSValue
  | .array (x :: _) => x
  | _ => .undefined

/-- String-keyed properties of `Object.prototype`. -/
def objectPrototypeKeys : List String :=
  ["constructor", "__defineGetter__", "__defineSetter__", "hasOwnProperty",
   "__lookupGetter__", "__lookupSetter__", "isPrototypeOf", "propertyIsEnumerable",
   "toString", "valueOf", "__proto__", "toLocaleString"]

/-- String-keyed properties of `Array.prototype`. -/
def arrayPrototypeKeys : List String :=
  ["length", "constructor", "at", "concat", "copyWithin", "fill", "find", "findIndex",
   "findLast", "findLastIndex", "lastIndexOf", "pop", "push", "reverse", "shift",
   "unshift", "slice", "sort", "splice", "includes", "indexOf", "join", "keys",
   "entries", "values", "forEach", "filter", "flat", "flatMap", "map", "every",
   "some", "reduce", "reduceRight", "toLocaleString", "toString", "toReversed",
   "toSorted", "toSpliced", "with"]

/-- The number a property key denotes when it is a canonical array index: a
non-empty run of decimal digits without a leading zero (the key `"0"` apart). -/
def arrayIndex? (key : String) : Option Nat :=
  let cs := key.data
  if cs.all Char.isDigit && !cs.isEmpty && (cs.head? != some '0' || cs.length == 1) then
    some (cs.foldl (fun n c => 10 * n + (c.toNat - 48)) 0)
  else
    none

/-- Own string-keyed properties: the listed properties of an object; the indices
below the length, and `length`, of an array. -/
def hasOwnProperty (obj : JSValue) (key : String) : Bool :=
  match obj with
  | .object props => props.any (fun p => p.1 == key)
  | .array items =>
      key == "length" ||
        (match arrayIndex? key with
         | some i => decide (i < items.length)
         | none => false)
  | _ => false

/-- Properties reached through the prototype chain of a parsed value. -/
def inheritsProperty (obj : JSValue) (key : String) : Bool :=
  match obj with
  | .object _ => objectPrototypeKeys.contains key
  | .array _ => arrayPrototypeKeys.contains key || objectPrototypeKeys.contains key
  | _ => false

/-- The property lookup behind `in`: an own property, or one found on the
prototype chain. -/
def hasProperty (obj : JSValue) (key : String) : Bool :=
  hasOwnProperty obj key || inheritsProperty obj key

/-- The operator `key in obj`: own or inherited property; a `TypeError` when the
right operand is not an object. -/
def inOperator (key : String) (obj : JSValue) : Except JSError Bool :=
  match obj with
  | .object _ => .ok (hasProperty obj key)
  | .array _ => .ok (hasProperty obj key)
  | _ => .error .typeError

/-! ## The form -/

/-- The six target fields of an import template. -/
inductive TargetField where
  | ProductName
  | Price
  | OriginalPrice
  | Details
  | CashbackPercentage
  | Source
  deriving DecidableEq, Repr

/-- The field name as written in the script. -/
def TargetField.name : TargetField → String
  | .ProductName => "ProductName"
  | .Price => "Price"
  | .OriginalPrice => "OriginalPrice"
  | .Details => "Details"
  | .CashbackPercentage => "CashbackPercentage"
  | .Source => "Source"

/-- The values of the six inputs `map_<field>`. -/
abbrev Form := TargetField → String

/-- The assignment `input.value = key` on the input of `field`. -/
def setValue (form : Form) (field : TargetField) (key : String) : Form :=
  fun g => if g = field then key else form g

/-- The table `mappings` of `suggestMappings`: the candidate keys of each field,
in the order written. -/
def mappings : TargetField → List String
  | .ProductName => ["titulo", "title", "name", "product_name", "productName"]
  | .Price => ["price", "preco", "valor", "currentPrice"]
  | .OriginalPrice => ["oldPrice", "originalPrice", "precoOriginal", "preco_original"]
  | .Details => ["details", "description", "descricao", "detalhes"]
  | .CashbackPercentage => ["percentCashback", "cashback", "cashbackPercent"]
  | .Source => ["source", "origem", "provider", "fornecedor"]

/-- The order of `Object.keys(mappings)`, also the order of the field array in
`handleSubmit`. -/
def fieldOrder : List TargetField :=
  [.ProductName, .Price, .OriginalPrice, .Details, .CashbackPercentage, .Source]

/-! ## `hasKey` and `suggestMappings` -/

/-- The function `hasKey(obj, key)`. -/
def hasKey (obj : JSValue) (key : String) : Except JSError Bool :=
  if typeof obj != "object" || isNull obj then .ok false
  else inOperator key obj

/-- The loop `for (const key of possibleKeys)`: the first key the sample has is
written to the input and the loop is left. -/
def scanKeys (sample : JSValue) (form : Form) (field : TargetField) :
    List String → Except JSError Form
  | [] => .ok form
  | key :: rest =>
      match hasKey sample key with
      | .error e => .error e
      | .ok true => .ok (setValue form field key)
      | .ok false => scanKeys sample form field rest

/-- The callback of `Object.keys(mappings).forEach`: one field is auto-filled,
only when its input is empty. -/
def fillField (sample : JSValue) (form : Form) (field : TargetField) :
    Except JSError Form :=
  if form field = "" then scanKeys sample form field (mappings field)
  else .ok form

/-- The `forEach` over a list of fields, in the order given. -/
def fillFields (sample : JSValue) : List TargetField → Form → Except JSError Form
  | [], form => .ok form
  | field :: rest, form =>
      match fillField sample form field with
      | .error e => .error e
      | .ok form1 => fillFields sample rest form1

/-- The sample object of `suggestMappings`:
`Array.isArray(data) ? data[0] : data`. -/
def sampleOf (data : JSValue) : JSValue :=
  if isArray data then elementZero data else data

/-- The function `suggestMappings(data)`, run on the form as it stands. -/
def suggestMappings (data : JSValue) (form : Form) : Except JSError Form :=
  fillFields (sampleOf data) fieldOrder form

/-- The assignment `obj[key] = value` on a list of own properties: an existing
property keeps its place and takes the new value, a new one is added last. -/
def setProperty {α : Type} : List (String × α) → String → α → List (String × α)
  | [], key, value => [(key, value)]
  | (k, v) :: rest, key, value =>
      if k = key then (k, value) :: rest else (k, v) :: setProperty rest key value

/-! ## The mapping schema of `handleSubmit` -/

/-- The loop of `handleSubmit` that builds `mappingSchema`: starting from `{}`,
each field whose input holds a non-empty value is assigned that value. -/
def mappingSchema (form : Form) : List (String × String) :=
  fieldOrder.foldl
    (fun schema field =>
      let value := form field
      if value ≠ "" then setProperty schema field.name value else schema)
    []

/-! ## `handleSubmit` and `editTemplate` -/

/-- The constant `API_BASE` of `import.js`. -/
def API_BASE : String := "/api/import-templates"

/-- The controls of the import form that `handleSubmit` reads. -/
structure ImportPage where
  templateId : String
  templateName : String
  s3Url : String
  isActive : Bool
  form : Form

/-- The object `template` of `handleSubmit`.  The field `mapping_schema` holds
the object that the script hands to `JSON.stringify`. -/
structure ImportTemplate where
  name : String
  s3_url : String
  mapping_schema : List (String × String)
  is_active : Bool

/-- What `handleSubmit` has done when it stops or first awaits: an alert
followed by `return`, or a request sent with `fetch`. -/
inductive SubmitOutcome where
  | rejected (alert : String)
  | sent (method url : String) (template : ImportTemplate)

/-- The property read `obj[key]` on an object of strings: the value of the own
property, `undefined` (here `none`) when there is none.  No key read by the
script is a property of `Object.prototype`. -/
def getProperty : List (String × String) → String → Option String
  | [], _ => none
  | (k, v) :: rest, key => if k = key then some v else getProperty rest key

/-- Truthiness of a string or `undefined`: a non-empty string. -/
def truthy : Option String → Bool
  | none => false
  | some value => value != ""

/-- The function `handleSubmit(e)`, up to the `fetch` call. -/
def handleSubmit (page : ImportPage) : SubmitOutcome :=
  let schema := mappingSchema page.form
  if !truthy (getProperty schema "ProductName") then
    .rejected "O campo ProductName é obrigatório"
  else
    let template : ImportTemplate :=
      ⟨page.templateName, page.s3Url, schema, page.isActive⟩
    if page.templateId ≠ "" then
      .sent "PUT" (API_BASE ++ "/" ++ page.templateId) template
    else
      .sent "POST" API_BASE template

/-- The lookup `document.getElementById('map_' + field)`: the input of the
target field of that name, `null` (here `none`) for any other name. -/
def mappingInput? (field : String) : Option TargetField :=
  fieldOrder.find? (fun f => f.name == field)

/-- The loop `Object.keys(mapping).forEach(...)` of `editTemplate`: each own
property of the parsed mapping in turn, its value `mapping[field]` being
written to the input `map_<field>` when that input exists. -/
def editTemplateFill : List (String × String) → Form → Form
  | [], form => form
  | (field, value) :: rest, form =>
      match mappingInput? field with
      | some f => editTemplateFill rest (setValue form f value)
      | none => editTemplateFill rest form

/-! ## Predicates and sample data used in the statements -/

/-- A key that no parsed value inherits and that is not an own key of any array:
not a property of either prototype, not `length`, not an array index. -/
def plainKey (key : String) : Bool :=
  !objectPrototypeKeys.contains key && !arrayPrototypeKeys.contains key &&
    key != "length" && (arrayIndex? key).isNone

/-- The values `null`, `undefined` and the primitives: everything that is
neither an object nor an array. -/
def nullOrPrimitive : JSValue → Bool
  | .object _ => false
  | .array _ => false
  | _ => true

/-- A response without a sample object: `null`, a primitive, an empty array, or
an array whose first element is `null` or a primitive. -/
def degenerateInput : JSValue → Bool
  | .array [] => true
  | .array (x :: _) => nullOrPrimitive x
  | v => nullOrPrimitive v

/-- The form with all six inputs empty. -/
def emptyForm : Form := fun _ => ""

/-- The record `{"title": "Shoe", "currentPrice": 199.9, "preco": 150}`. -/
def shoeSample : JSValue :=
  .object [("title", .string "Shoe"), ("currentPrice", .number 199.9), ("preco", .number 150)]

/-- The record `{"title": "Shoe", "vendor": "Acme"}`. -/
def vendorSample : JSValue :=
  .object [("title", .string "Shoe"), ("vendor", .string "Acme")]

/-- The record `{"Title": "Shoe", "item": {"title": "Shoe"}}`: the key `title`
occurs in another letter case and inside a nested object only. -/
def nestedSample : JSValue :=
  .object [("Title", .string "Shoe"), ("item", .object [("title", .string "Shoe")])]

/-- A form as an operator may leave it: product name and price mapped, the
other four inputs empty. -/
def operatorForm : Form := setValue (setValue emptyForm .ProductName "title") .Price "preco"

/-- A submission page around a form: a new template, named and active. -/
def pageOf (form : Form) : ImportPage :=
  ⟨"", "Loja", "https://bucket.s3.amazonaws.com/feed.json", true, form⟩

/-- The stored mapping `{"ProductName": "title"}`. -/
def titleMapping : List (String × String) := [("ProductName", "title")]

end ImportJs

/-! # `templates.js` -/

namespace TemplatesJs

open ImportJs (JSValue isArray)

/-- The constant `API_BASE` of `templates.js`. -/
def API_BASE : String := "/api"

/-- The controls of the template dialog that `saveTemplate` reads. -/
structure TemplateForm where
  templateId : String
  templateName : String
  productModel : String
  titleField : String
  descriptionField : String
  priceField : String
  discountField : String
  detailsFields : String
  messageSchema : String
  snsTopicArn : String
  isActive : Bool

/-- The expression `value || null` on a string. -/
def orNull (value : String) : Option String :=
  if value = "" then none else some value

/-- The object `data` of `saveTemplate`. -/
structure TemplateData where
  name : String
  product_model : String
  title_field : String
  description_field : Option String
  price_field : String
  discount_field : Option String
  details_fields : Option String
  message_schema : String
  sns_topic_arn : Option String
  is_active : Bool

/-- What `saveTemplate` has done when it stops or first awaits: an alert
followed by `return`, or a request sent with `fetch`. -/
inductive SaveOutcome where
  | rejected (alert : String)
  | sent (method url : String) (data : TemplateData)

/-- The request of `saveTemplate`, built once both validations have passed. -/
def saveRequest (page : TemplateForm) : SaveOutcome :=
  let data : TemplateData :=
    ⟨page.templateName, page.productModel, page.titleField, orNull page.descriptionField,
      page.priceField, orNull page.discountField, orNull page.detailsFields,
      page.messageSchema, orNull page.snsTopicArn, page.isActive⟩
  let url :=
    if page.templateId ≠ "" then API_BASE ++ "/templates/" ++ page.templateId
    else API_BASE ++ "/templates"
  let method := if page.templateId ≠ "" then "PUT" else "POST"
  .sent method url data

/-- The function `saveTemplate(event)`, up to the `fetch` call.  The parameter
`parse` is `JSON.parse`: the parsed value, or `none` where `JSON.parse` throws. -/
def saveTemplate (parse : String → Option JSValue) (page : TemplateForm) : SaveOutcome :=
  let detailsFields := orNull page.detailsFields
  match parse page.messageSchema with
  | none => .rejected "Schema da mensagem inválido! Deve ser um JSON válido."
  | some _ =>
      match detailsFields with
      | some text =>
          match parse text with
          | some parsed =>
              if !isArray parsed then
                .rejected
                  "Campos para busca deve ser um array JSON! Ex: [\"brand\", \"category\"]"
              else saveRequest page
          | none => .rejected "Campos para busca inválido! Deve ser um array JSON válido."
      | none => saveRequest page

/-- The values of `JSON.parse` on three texts, for the examples: the array
`["brand"]`, the number `1`, the string `"x"`.  Every other text is treated as
one on which `JSON.parse` throws. -/
def parseExamples (text : String) : Option JSValue :=
  if text = "[\"brand\"]" then some (.array [.string "brand"])
  else if text = "1" then some (.number 1)
  else if text = "\"x\"" then some (.string "x")
  else none

/-- A template dialog with the given search fields and message schema. -/
def dialogOf (detailsFields messageSchema : String) : TemplateForm :=
  ⟨"", "Oferta", "produto", "title", "", "price", "", detailsFields, messageSchema, "", true⟩

end TemplatesJs

/-! # `dashboard.js` -/

namespace DashboardJs

/-- The function `formatDate(dateString)` as a function of the two instants, in
milliseconds, and of the text that `toLocaleDateString` returns for the date.
The division is the flooring one, as in `Math.floor(diffMs / 60000)`. -/
def formatDate (now date : Int) (localeDate : String) : String :=
  let diffMs := now - date
  let diffMins := diffMs / 60000
  let diffHours := diffMs / 3600000
  if diffMins < 1 then "Agora"
  else if diffMins < 60 then toString diffMins ++ "m atrás"
  else if diffHours < 24 then toString diffHours ++ "h atrás"
  else localeDate

/-- The variables of one `animateValue` call that its timer callback reads and
writes: the counter `current`, the number last written to `textContent` (none
before the first tick), and whether `clearInterval(timer)` has been called. -/
structure Animation where
  current : ℚ
  textContent : Option Int
  cleared : Bool

/-- The constant `increment` of `animateValue`: `range / (duration / 16)`. -/
def increment (start endValue : Int) (duration : ℚ) : ℚ :=
  ((endValue - start : Int) : ℚ) / (duration / 16)

/-- One run of the timer callback of `animateValue`; a cleared timer no longer
runs it. -/
def tick (endValue : Int) (inc : ℚ) (s : Animation) : Animation :=
  if s.cleared then s
  else
    let current := s.current + inc
    if (decide (inc > 0) && decide (current ≥ endValue)) ||
        (decide (inc < 0) && decide (current ≤ endValue)) then
      ⟨endValue, some (Int.floor (endValue : ℚ)), true⟩
    else
      ⟨current, some (Int.floor current), false⟩

/-- The function `animateValue(id, start, end, duration)`: the state of the call
after the timer has fired `n` times, one time every 16 ms. -/
def animateValue (start endValue : Int) (duration : ℚ) : Nat → Animation
  | 0 => ⟨start, none, false⟩
  | n + 1 => tick endValue (increment start endValue duration)
      (animateValue start endValue duration n)

end DashboardJs

namespace ImportJs

/-! ## Auxiliary facts -/

theorem mappings_plainKey (field : TargetField) :
    ∀ key ∈ mappings field, plainKey key = true := by
  cases field <;> decide

theorem hasKey_eq_hasProperty (obj : JSValue) (key : String) :
    hasKey obj key = .ok (hasProperty obj key) := by
  cases obj <;> rfl

theorem inheritsProperty_of_plainKey (obj : JSValue) {key : String}
    (h : plainKey key = true) : inheritsProperty obj key = false := by
  simp only [plainKey, Bool.and_eq_true, Bool.not_eq_true', bne_iff_ne, ne_eq,
    Option.isNone_iff_eq_none] at h
  obtain ⟨⟨⟨hobj, harr⟩, _⟩, _⟩ := h
  cases obj <;> simp only [inheritsProperty, hobj, harr, Bool.or_false]

theorem hasProperty_of_plainKey (obj : JSValue) {key : String} (h : plainKey key = true) :
    hasProperty obj key = hasOwnProperty obj key := by
  rw [hasProperty, inheritsProperty_of_plainKey obj h, Bool.or_false]

theorem hasOwnProperty_array_of_plainKey (items : List JSValue) {key : String}
    (h : plainKey key = true) : hasOwnProperty (.array items) key = false := by
  simp only [plainKey, Bool.and_eq_true, Bool.not_eq_true', bne_iff_ne, ne_eq,
    Option.isNone_iff_eq_none] at h
  obtain ⟨⟨⟨_, _⟩, hlen⟩, hidx⟩ := h
  simp [hasOwnProperty, hlen, hidx]

theorem scanKeys_eq (sample : JSValue) (form : Form) (field : TargetField)
    (keys : List String) :
    scanKeys sample form field keys =
      .ok (match keys.find? (hasProperty sample) with
           | some key => setValue form field key
           | none => form) := by
  induction keys with
  | nil => rfl
  | cons key rest ih =>
    rw [scanKeys, hasKey_eq_hasProperty]
    cases h : hasProperty sample key
    · simp only [List.find?_cons, h]
      exact ih
    · simp only [List.find?_cons, h]

/-- The content of the input of `field` after the `forEach` has run over `order`. -/
theorem fillFields_apply (sample : JSValue) (order : List TargetField) (form : Form) :
    ∃ form1, fillFields sample order form = .ok form1 ∧
      ∀ g, form1 g =
        if g ∈ order ∧ form g = "" then
          ((mappings g).find? (hasProperty sample)).getD ""
        else form g := by
  induction order generalizing form with
  | nil => exact ⟨form, rfl, fun g => by simp⟩
  | cons field rest ih =>
    have hstep : ∃ form0, fillField sample form field = .ok form0 ∧
        ∀ g, form0 g =
          if g = field ∧ form g = "" then
            ((mappings g).find? (hasProperty sample)).getD ""
          else form g := by
      unfold fillField
      by_cases hf : form field = ""
      · rw [if_pos hf, scanKeys_eq]
        refine ⟨_, rfl, fun g => ?_⟩
        by_cases hg : g = field
        · subst hg
          cases hfind : (mappings g).find? (hasProperty sample) <;>
            simp [hfind, hf, setValue]
        · cases hfind : (mappings field).find? (hasProperty sample) <;>
            simp [hfind, hg, setValue]
      · rw [if_neg hf]
        refine ⟨_, rfl, fun g => ?_⟩
        by_cases hg : g = field
        · subst hg
          simp [hf]
        · simp [hg]
    obtain ⟨form0, h0, hval0⟩ := hstep
    obtain ⟨form1, h1, hval1⟩ := ih form0
    refine ⟨form1, ?_, fun g => ?_⟩
    · rw [fillFields, h0]
      exact h1
    · rw [hval1 g, hval0 g]
      by_cases hg : g = field
      · subst hg
        by_cases hf : form g = ""
        · simp [hf]
        · simp [hf]
      · simp [hg]

theorem mem_fieldOrder (field : TargetField) : field ∈ fieldOrder := by
  cases field <;> decide

theorem find?_congr_mem {p q : String → Bool} (keys : List String)
    (h : ∀ key ∈ keys, p key = q key) : keys.find? p = keys.find? q := by
  induction keys with
  | nil => rfl
  | cons key rest ih =>
    have hrest : ∀ k ∈ rest, p k = q k := fun k hk => h k (List.mem_cons_of_mem _ hk)
    simp only [List.find?_cons, h key (List.mem_cons_self _ _), ih hrest]

/-- On the candidate keys of a field the lookup of `hasKey` is the own-key test. -/
theorem find?_mappings (sample : JSValue) (field : TargetField) :
    (mappings field).find? (hasProperty sample) =
      (mappings field).find? (hasOwnProperty sample) :=
  find?_congr_mem _ fun _ hkey =>
    hasProperty_of_plainKey sample (mappings_plainKey field _ hkey)

/-- The run of `suggestMappings` never throws, and each input ends up holding
its old value when that was non-empty, else the first candidate key that is a
key of the sample, else the empty string. -/
theorem suggestMappings_apply (data : JSValue) (form : Form) :
    ∃ form1, suggestMappings data form = .ok form1 ∧
      ∀ g, form1 g =
        if form g = "" then
          ((mappings g).find? (hasOwnProperty (sampleOf data))).getD ""
        else form g := by
  obtain ⟨form1, h1, hval⟩ := fillFields_apply (sampleOf data) fieldOrder form
  refine ⟨form1, h1, fun g => ?_⟩
  rw [hval g, find?_mappings]
  simp [mem_fieldOrder]

theorem nullOrPrimitive_hasOwnProperty {sample : JSValue} (h : nullOrPrimitive sample = true)
    (key : String) : hasOwnProperty sample key = false := by
  cases sample <;> first | rfl | exact absurd h (by simp [nullOrPrimitive])

theorem degenerateInput_sampleOf {data : JSValue} (h : degenerateInput data = true) :
    nullOrPrimitive (sampleOf data) = true := by
  cases data with
  | array items =>
    cases items with
    | nil => rfl
    | cons x rest => exact h
  | object props => exact absurd h (by simp [degenerateInput, nullOrPrimitive])
  | _ => rfl

/-- A sample with none of the candidate keys leaves the whole form as it was. -/
theorem suggestMappings_eq_self (data : JSValue) (form : Form)
    (h : ∀ g, ∀ a ∈ mappings g, hasOwnProperty (sampleOf data) a = false) :
    suggestMappings data form = .ok form := by
  obtain ⟨form1, h1, hval⟩ := suggestMappings_apply data form
  have hfind : ∀ g, (mappings g).find? (hasOwnProperty (sampleOf data)) = none := by
    intro g
    rw [List.find?_eq_none]
    intro a ha
    simp [h g a ha]
  have hform : form1 = form := by
    funext g
    rw [hval g, hfind g]
    by_cases hg : form g = ""
    · rw [if_pos hg, hg]; rfl
    · rw [if_neg hg]
  rw [h1, hform]

/-! ## The suggester -/

/-- C1: for every response and every state of the form, a target field whose
input is non-empty holds exactly the same value after `suggestMappings` has run
(and the run does not throw), whatever keys the sample has. -/
theorem suggestMappings_keeps_filled (data : JSValue) (form : Form) (f : TargetField)
    (h : form f ≠ "") :
    ∃ form1, suggestMappings data form = .ok form1 ∧ form1 f = form f := by
  obtain ⟨form1, h1, hval⟩ := suggestMappings_apply data form
  exact ⟨form1, h1, by rw [hval f, if_neg h]⟩

theorem suggestMappings_keeps_filled_witness :
    setValue emptyForm .Price "custo" .Price ≠ "" ∧
      ∃ form1, suggestMappings shoeSample (setValue emptyForm .Price "custo") = .ok form1 ∧
        form1 .Price = setValue emptyForm .Price "custo" .Price :=
  ⟨by decide,
   suggestMappings_keeps_filled shoeSample (setValue emptyForm .Price "custo") .Price
     (by decide)⟩

/-- C2: when the input of field `f` is empty and some candidate key of `f` is a
key of the sample, `suggestMappings` writes into `f` a candidate key of `f` that
is a key of the sample and is preceded in the list of `f` only by candidates the
sample lacks: the earliest one present. -/
theorem suggestMappings_first_match (data : JSValue) (form : Form) (f : TargetField)
    (hempty : form f = "")
    (hsome : ∃ a ∈ mappings f, hasOwnProperty (sampleOf data) a = true) :
    ∃ form1 before after,
      suggestMappings data form = .ok form1 ∧
      mappings f = before ++ form1 f :: after ∧
      hasOwnProperty (sampleOf data) (form1 f) = true ∧
      ∀ b ∈ before, hasOwnProperty (sampleOf data) b = false := by
  obtain ⟨form1, h1, hval⟩ := suggestMappings_apply data form
  obtain ⟨a, ha, hown⟩ := hsome
  cases hfind : (mappings f).find? (hasOwnProperty (sampleOf data)) with
  | none =>
    rw [List.find?_eq_none] at hfind
    exact absurd hown (hfind a ha)
  | some key =>
    have hf : form1 f = key := by rw [hval f, if_pos hempty, hfind]; rfl
    rw [List.find?_eq_some] at hfind
    obtain ⟨hkey, before, after, hsplit, hbefore⟩ := hfind
    refine ⟨form1, before, after, h1, by rw [hf]; exact hsplit, by rw [hf]; exact hkey, ?_⟩
    intro b hb
    simpa using hbefore b hb

theorem suggestMappings_first_match_witness :
    (emptyForm .Price = "" ∧
      ∃ a ∈ mappings .Price, hasOwnProperty (sampleOf shoeSample) a = true) ∧
    (∃ form1 before after,
      suggestMappings shoeSample emptyForm = .ok form1 ∧
      mappings .Price = before ++ form1 .Price :: after ∧
      hasOwnProperty (sampleOf shoeSample) (form1 .Price) = true ∧
      ∀ b ∈ before, hasOwnProperty (sampleOf shoeSample) b = false) ∧
    (∃ form1, suggestMappings shoeSample emptyForm = .ok form1 ∧ form1 .Price = "preco") :=
  ⟨⟨rfl, "preco", by decide, rfl⟩,
   suggestMappings_first_match shoeSample emptyForm .Price rfl ⟨"preco", by decide, rfl⟩,
   ⟨_, rfl, rfl⟩⟩

/-- C3: when the input of field `f` is empty and no candidate key of `f` is a key
of the sample, the input of `f` is still empty after `suggestMappings` has run:
nothing is written into it. -/
theorem suggestMappings_no_match (data : JSValue) (form : Form) (f : TargetField)
    (hempty : form f = "")
    (hnone : ∀ a ∈ mappings f, hasOwnProperty (sampleOf data) a = false) :
    ∃ form1, suggestMappings data form = .ok form1 ∧ form1 f = "" := by
  obtain ⟨form1, h1, hval⟩ := suggestMappings_apply data form
  refine ⟨form1, h1, ?_⟩
  have hfind : (mappings f).find? (hasOwnProperty (sampleOf data)) = none := by
    rw [List.find?_eq_none]
    intro a ha
    simp [hnone a ha]
  rw [hval f, if_pos hempty, hfind]
  rfl

theorem suggestMappings_no_match_witness :
    (emptyForm .Source = "" ∧
      ∀ a ∈ mappings .Source, hasOwnProperty (sampleOf vendorSample) a = false) ∧
    ∃ form1, suggestMappings vendorSample emptyForm = .ok form1 ∧ form1 .Source = "" :=
  ⟨⟨rfl, by decide⟩,
   suggestMappings_no_match vendorSample emptyForm .Source rfl (by decide)⟩

/-- C4: on a response that is `null`, a primitive, an empty array, or an array
whose first element is `null` or a primitive, `suggestMappings` returns without
throwing and leaves all six inputs exactly as they were. -/
theorem suggestMappings_degenerate (data : JSValue) (form : Form)
    (h : degenerateInput data = true) : suggestMappings data form = .ok form :=
  suggestMappings_eq_self data form fun _ a _ =>
    nullOrPrimitive_hasOwnProperty (degenerateInput_sampleOf h) a

theorem suggestMappings_degenerate_witness :
    (degenerateInput .null = true ∧ suggestMappings .null emptyForm = .ok emptyForm) ∧
    (degenerateInput (.array []) = true ∧
      suggestMappings (.array []) emptyForm = .ok emptyForm) ∧
    (degenerateInput (.array [.number 7, shoeSample]) = true ∧
      suggestMappings (.array [.number 7, shoeSample]) emptyForm = .ok emptyForm) :=
  ⟨⟨rfl, suggestMappings_degenerate .null emptyForm rfl⟩,
   ⟨rfl, suggestMappings_degenerate (.array []) emptyForm rfl⟩,
   ⟨rfl, suggestMappings_degenerate (.array [.number 7, shoeSample]) emptyForm rfl⟩⟩

theorem hasOwnProperty_setProperty (props : List (String × JSValue)) (key : String)
    (value : JSValue) : hasOwnProperty (.object (setProperty props key value)) key = true := by
  induction props with
  | nil => simp [setProperty, hasOwnProperty]
  | cons p rest ih =>
    obtain ⟨k, v⟩ := p
    by_cases hk : k = key
    · simp [setProperty, hasOwnProperty, hk]
    · simp only [hasOwnProperty] at ih
      simp [setProperty, hasOwnProperty, hk, ih]

/-- C5: the test of `hasKey` looks at the presence of the key only.  On an object
in which key `k` has been set to any value `v` (a falsy one included) `hasKey`
answers true for `k`; and when the input of field `f` is empty and candidate `a`
of `f` has been set to any value `v` in the sample while the sample has none of
the candidates listed before `a`, `suggestMappings` fills `f` with `a`. -/
theorem hasKey_ignores_value (props : List (String × JSValue)) (k : String) (v : JSValue)
    (form : Form) (f : TargetField) (a : String) (before after : List String)
    (hempty : form f = "") (hsplit : mappings f = before ++ a :: after)
    (hbefore : ∀ b ∈ before, hasOwnProperty (.object (setProperty props a v)) b = false) :
    hasKey (.object (setProperty props k v)) k = .ok true ∧
    ∃ form1, suggestMappings (.object (setProperty props a v)) form = .ok form1 ∧
      form1 f = a := by
  constructor
  · rw [hasKey_eq_hasProperty, hasProperty, hasOwnProperty_setProperty]
    rfl
  · obtain ⟨form1, h1, hval⟩ := suggestMappings_apply (.object (setProperty props a v)) form
    refine ⟨form1, h1, ?_⟩
    have hfind : (mappings f).find?
        (hasOwnProperty (sampleOf (.object (setProperty props a v)))) = some a := by
      rw [List.find?_eq_some]
      refine ⟨hasOwnProperty_setProperty props a v, before, after, hsplit, ?_⟩
      intro b hb
      have := hbefore b hb
      simpa [sampleOf, isArray] using this
    rw [hval f, if_pos hempty, hfind]
    rfl

theorem hasKey_ignores_value_witness :
    (emptyForm .Price = "" ∧ mappings .Price = ["price"] ++ "preco" :: ["valor", "currentPrice"] ∧
      ∀ b ∈ ["price"], hasOwnProperty
        (.object (setProperty [("title", .string "Shoe")] "preco" (.number 0))) b = false) ∧
    (hasKey (.object (setProperty [("title", .string "Shoe")] "title" (.number 0))) "title"
        = .ok true ∧
      ∃ form1, suggestMappings
          (.object (setProperty [("title", .string "Shoe")] "preco" (.number 0))) emptyForm
          = .ok form1 ∧ form1 .Price = "preco") ∧
    (hasKey (.object (setProperty [] "x" (.string ""))) "x" = .ok true ∧
      ∃ form1, suggestMappings
          (.object (setProperty [] "price" (.string ""))) emptyForm
          = .ok form1 ∧ form1 .Price = "price") ∧
    (hasKey (.object (setProperty [] "x" (.bool false))) "x" = .ok true ∧
      ∃ form1, suggestMappings
          (.object (setProperty [] "price" (.bool false))) emptyForm
          = .ok form1 ∧ form1 .Price = "price") ∧
    (hasKey (.object (setProperty [] "x" .null)) "x" = .ok true ∧
      ∃ form1, suggestMappings
          (.object (setProperty [] "price" .null)) emptyForm
          = .ok form1 ∧ form1 .Price = "price") :=
  ⟨⟨rfl, rfl, by decide⟩,
   hasKey_ignores_value [("title", .string "Shoe")] "title" (.number 0) emptyForm .Price
     "preco" ["price"] ["valor", "currentPrice"] rfl rfl (by decide),
   hasKey_ignores_value [] "x" (.string "") emptyForm .Price
     "price" [] ["preco", "valor", "currentPrice"] rfl rfl (by simp),
   hasKey_ignores_value [] "x" (.bool false) emptyForm .Price
     "price" [] ["preco", "valor", "currentPrice"] rfl rfl (by simp),
   hasKey_ignores_value [] "x" .null emptyForm .Price
     "price" [] ["preco", "valor", "currentPrice"] rfl rfl (by simp)⟩

/-! ## The key test -/

/-- C6, as stated, fails: on the empty object the key `constructor` is no own
key, it is inherited from `Object.prototype`, and `hasKey` answers true; so
`hasKey` is not the own-key test on non-null objects. -/
theorem hasKey_inherited_counterexample :
    (hasOwnProperty (.object []) "constructor" = false ∧
      inheritsProperty (.object []) "constructor" = true ∧
      hasKey (.object []) "constructor" = .ok true) ∧
    ¬ ∀ (obj : JSValue) (key : String),
        hasKey obj key = .ok true ↔
          (typeof obj = "object" ∧ isNull obj = false ∧ hasOwnProperty obj key = true) :=
  ⟨⟨rfl, rfl, rfl⟩, fun h =>
    Bool.noConfusion (((h (.object []) "constructor").mp rfl).2.2)⟩

/-- C6, amended: `hasKey` never throws and answers true exactly when the value
is a non-null object (an array included) and the key is one of its own keys or a
property found on its prototype chain.  For a key that is not inherited, as is
every candidate key of the table, this is the own-key test; and the own keys of
an object are exactly the keys of its top-level properties, compared character
for character. -/
theorem hasKey_spec (obj : JSValue) (key : String) :
    hasKey obj key =
        .ok (decide (typeof obj = "object") && !isNull obj &&
              (hasOwnProperty obj key || inheritsProperty obj key)) ∧
    (inheritsProperty obj key = false →
      hasKey obj key =
        .ok (decide (typeof obj = "object") && !isNull obj && hasOwnProperty obj key)) ∧
    (∀ f, key ∈ mappings f → inheritsProperty obj key = false) ∧
    (∀ props, obj = .object props →
      (hasOwnProperty obj key = true ↔ ∃ v, (key, v) ∈ props)) := by
  have hmain : hasKey obj key =
      .ok (decide (typeof obj = "object") && !isNull obj &&
            (hasOwnProperty obj key || inheritsProperty obj key)) := by
    cases obj <;> rfl
  refine ⟨hmain, ?_, ?_, ?_⟩
  · intro hinh
    rw [hmain, hinh, Bool.or_false]
  · intro f hf
    exact inheritsProperty_of_plainKey obj (mappings_plainKey f key hf)
  · intro props hobj
    subst hobj
    simp only [hasOwnProperty, List.any_eq_true, beq_iff_eq]
    constructor
    · rintro ⟨⟨k, v⟩, hmem, hk⟩
      exact ⟨v, by simpa [← hk] using hmem⟩
    · rintro ⟨v, hmem⟩
      exact ⟨(key, v), hmem, rfl⟩

theorem hasKey_spec_witness :
    (inheritsProperty nestedSample "title" = false ∧
      hasKey nestedSample "title" = .ok false) ∧
    ("title" ∈ mappings .ProductName ∧ inheritsProperty shoeSample "title" = false) ∧
    (shoeSample = .object [("title", .string "Shoe"), ("currentPrice", .number 199.9),
        ("preco", .number 150)] ∧
      (hasOwnProperty shoeSample "preco" = true ↔
        ∃ v, ("preco", v) ∈ [("title", JSValue.string "Shoe"),
          ("currentPrice", JSValue.number 199.9), ("preco", JSValue.number 150)])) :=
  ⟨⟨rfl, (hasKey_spec nestedSample "title").2.1 rfl⟩,
   ⟨by decide, (hasKey_spec shoeSample "title").2.2.1 .ProductName (by decide)⟩,
   ⟨rfl, (hasKey_spec shoeSample "preco").2.2.2 _ rfl⟩⟩

/-! ## Sample selection, repetition, field order -/

/-- C7: on an array response the suggester runs with the first element, taken
as it is, as sample (`undefined` when the array is empty); the elements after
the first have no influence; a first element that is itself an array is not
unwrapped, so that nothing is filled from it; and on a response that is not an
array the sample is the response itself. -/
theorem suggestMappings_sample (data x : JSValue) (items rest rest1 inner : List JSValue)
    (form : Form) (h : isArray data = false) :
    suggestMappings (.array items) form
        = fillFields (items.head?.getD .undefined) fieldOrder form ∧
    suggestMappings (.array (x :: rest)) form = suggestMappings (.array (x :: rest1)) form ∧
    suggestMappings (.array (.array inner :: rest)) form = .ok form ∧
    suggestMappings data form = fillFields data fieldOrder form := by
  refine ⟨?_, rfl, ?_, ?_⟩
  · cases items <;> rfl
  · exact suggestMappings_eq_self _ form fun g a ha =>
      hasOwnProperty_array_of_plainKey inner (mappings_plainKey g a ha)
  · simp only [suggestMappings, sampleOf, h]
    rfl

theorem suggestMappings_sample_witness :
    isArray shoeSample = false ∧
    (suggestMappings (.array [vendorSample, shoeSample]) emptyForm
        = fillFields (([vendorSample, shoeSample] : List JSValue).head?.getD .undefined)
            fieldOrder emptyForm ∧
      suggestMappings (.array (vendorSample :: [shoeSample])) emptyForm
        = suggestMappings (.array (vendorSample :: [])) emptyForm ∧
      suggestMappings (.array (.array [shoeSample] :: [shoeSample])) emptyForm
        = .ok emptyForm ∧
      suggestMappings shoeSample emptyForm = fillFields shoeSample fieldOrder emptyForm) :=
  ⟨rfl, suggestMappings_sample shoeSample vendorSample [vendorSample, shoeSample]
    [shoeSample] [] [shoeSample] emptyForm rfl⟩

/-- C8: `suggestMappings` never throws, and run a second time on the same
response over the form its first run produced it changes nothing; its result is
a function of the response and of the six input values alone, so equal inputs
give equal results. -/
theorem suggestMappings_idempotent (data : JSValue) (form : Form) :
    (∃ form1, suggestMappings data form = .ok form1 ∧
      suggestMappings data form1 = .ok form1) ∧
    ∀ data1 form0, data1 = data → form0 = form →
      suggestMappings data1 form0 = suggestMappings data form := by
  constructor
  · obtain ⟨form1, h1, hval1⟩ := suggestMappings_apply data form
    obtain ⟨form2, h2, hval2⟩ := suggestMappings_apply data form1
    refine ⟨form1, h1, ?_⟩
    have hform : form2 = form1 := by
      funext g
      rw [hval2 g]
      by_cases hg1 : form1 g = ""
      · rw [if_pos hg1]
        by_cases hg : form g = ""
        · rw [hval1 g, if_pos hg]
        · rw [hval1 g, if_neg hg] at hg1
          exact absurd hg1 hg
      · rw [if_neg hg1]
    rw [h2, hform]
  · rintro _ _ rfl rfl
    rfl

theorem suggestMappings_idempotent_witness :
    (∃ form1, suggestMappings shoeSample emptyForm = .ok form1 ∧
      suggestMappings shoeSample form1 = .ok form1) ∧
    suggestMappings (.object [("title", .string "Shoe"), ("currentPrice", .number 199.9),
        ("preco", .number 150)]) (fun _ => "") = suggestMappings shoeSample emptyForm :=
  ⟨(suggestMappings_idempotent shoeSample emptyForm).1,
   (suggestMappings_idempotent shoeSample emptyForm).2 _ _ rfl rfl⟩

/-- C9: the value `suggestMappings` leaves in the input of field `f` is the same
for any two forms that agree on `f`, whatever the other five inputs hold; and
running the callback over the six fields in any permuted order gives the same
form as the order of the script. -/
theorem suggestMappings_fields_independent (data : JSValue) (form form0 : Form)
    (f : TargetField) (order : List TargetField)
    (hf : form f = form0 f) (hperm : order.Perm fieldOrder) :
    (∃ form1 form2, suggestMappings data form = .ok form1 ∧
      suggestMappings data form0 = .ok form2 ∧ form1 f = form2 f) ∧
    fillFields (sampleOf data) order form = suggestMappings data form := by
  constructor
  · obtain ⟨form1, h1, hval1⟩ := suggestMappings_apply data form
    obtain ⟨form2, h2, hval2⟩ := suggestMappings_apply data form0
    exact ⟨form1, form2, h1, h2, by rw [hval1 f, hval2 f, hf]⟩
  · obtain ⟨form1, h1, hval1⟩ := fillFields_apply (sampleOf data) order form
    obtain ⟨form2, h2, hval2⟩ := fillFields_apply (sampleOf data) fieldOrder form
    have hform : form1 = form2 := by
      funext g
      rw [hval1 g, hval2 g]
      simp only [hperm.mem_iff]
    rw [suggestMappings, h1, h2, hform]

theorem suggestMappings_fields_independent_witness :
    (emptyForm .Price = setValue emptyForm .Source "loja" .Price ∧
      fieldOrder.reverse.Perm fieldOrder) ∧
    ((∃ form1 form2, suggestMappings shoeSample emptyForm = .ok form1 ∧
        suggestMappings shoeSample (setValue emptyForm .Source "loja") = .ok form2 ∧
        form1 .Price = form2 .Price) ∧
      fillFields (sampleOf shoeSample) fieldOrder.reverse emptyForm
        = suggestMappings shoeSample emptyForm) :=
  ⟨⟨rfl, List.reverse_perm _⟩,
   suggestMappings_fields_independent shoeSample emptyForm (setValue emptyForm .Source "loja")
     .Price fieldOrder.reverse rfl (List.reverse_perm _)⟩

/-! ## The mapping schema -/

theorem TargetField.name_injective : Function.Injective TargetField.name := by
  intro f g h
  cases f <;> cases g <;> first | rfl | exact absurd h (by decide)

theorem setProperty_of_not_mem {α : Type} (schema : List (String × α)) (key : String)
    (value : α) (h : key ∉ schema.map Prod.fst) :
    setProperty schema key value = schema ++ [(key, value)] := by
  induction schema with
  | nil => rfl
  | cons p rest ih =>
    obtain ⟨k, v⟩ := p
    simp only [List.map_cons, List.mem_cons, not_or] at h
    have hk : ¬ k = key := fun hk => h.1 hk.symm
    simp only [setProperty, if_neg hk, ih h.2, List.cons_append]

theorem foldl_schema (form : Form) (order : List TargetField)
    (schema : List (String × String)) (hnodup : order.Nodup)
    (hfresh : ∀ f ∈ order, f.name ∉ schema.map Prod.fst) :
    order.foldl
        (fun schema field =>
          let value := form field
          if value ≠ "" then setProperty schema field.name value else schema)
        schema
      = schema ++ (order.filter (fun f => decide (form f ≠ ""))).map
          (fun f => (f.name, form f)) := by
  induction order generalizing schema with
  | nil => simp
  | cons field rest ih =>
    rw [List.nodup_cons] at hnodup
    have hrest : ∀ f ∈ rest, f.name ∉ schema.map Prod.fst :=
      fun f hf => hfresh f (List.mem_cons_of_mem _ hf)
    by_cases hv : form field = ""
    · simp only [List.foldl_cons, ne_eq, hv, not_true_eq_false, if_false, decide_False,
        List.filter_cons_of_neg, Bool.false_eq_true, not_false_eq_true]
      simpa using ih schema hnodup.2 hrest
    · have hset := setProperty_of_not_mem schema field.name (form field)
        (hfresh field (List.mem_cons_self _ _))
      have hfresh1 : ∀ f ∈ rest, f.name ∉ (schema ++ [(field.name, form field)]).map Prod.fst := by
        intro f hf
        simp only [List.map_append, List.map_cons, List.map_nil, List.mem_append,
          List.mem_singleton, not_or]
        refine ⟨hrest f hf, fun hname => ?_⟩
        have := TargetField.name_injective hname
        exact hnodup.1 (this ▸ hf)
      have hih := ih (schema ++ [(field.name, form field)]) hnodup.2 hfresh1
      simp only [ne_eq] at hih
      simp only [List.foldl_cons, ne_eq, hv, not_false_eq_true, if_true, hset, decide_True,
        List.filter_cons_of_pos, List.map_cons]
      rw [hih]
      simp

theorem mappingSchema_eq (form : Form) :
    mappingSchema form =
      (fieldOrder.filter (fun f => decide (form f ≠ ""))).map (fun f => (f.name, form f)) := by
  have h := foldl_schema form fieldOrder [] (by decide) (by simp)
  simpa [mappingSchema] using h

/-- C10: the mapping schema built by `handleSubmit` has field `f` as a key
exactly when the input of `f` is non-empty, and then with the value of that
input; every key of the schema is the name of one of the six target fields, no
value in it is empty, and no key occurs twice. -/
theorem mappingSchema_spec (form : Form) :
    (∀ (f : TargetField) (v : String),
      (f.name, v) ∈ mappingSchema form ↔ (form f ≠ "" ∧ v = form f)) ∧
    (∀ (k v : String), (k, v) ∈ mappingSchema form →
      (∃ f : TargetField, k = f.name) ∧ v ≠ "") ∧
    ((mappingSchema form).map Prod.fst).Nodup := by
  rw [mappingSchema_eq]
  refine ⟨?_, ?_, ?_⟩
  · intro f v
    simp only [List.mem_map, List.mem_filter, decide_eq_true_eq, Prod.mk.injEq]
    constructor
    · rintro ⟨g, ⟨_, hg⟩, hname, hval⟩
      have := TargetField.name_injective hname
      subst this
      exact ⟨hg, hval.symm⟩
    · rintro ⟨hne, hv⟩
      exact ⟨f, ⟨mem_fieldOrder f, hne⟩, rfl, hv.symm⟩
  · intro k v
    simp only [List.mem_map, List.mem_filter, decide_eq_true_eq, Prod.mk.injEq]
    rintro ⟨g, ⟨_, hg⟩, hname, hval⟩
    exact ⟨⟨g, hname.symm⟩, hval ▸ hg⟩
  · rw [List.map_map]
    have hnodup : (fieldOrder.filter (fun f => decide (form f ≠ ""))).Nodup :=
      List.Nodup.filter _ (by decide)
    exact hnodup.map TargetField.name_injective

theorem mappingSchema_spec_witness :
    mappingSchema operatorForm = [("ProductName", "title"), ("Price", "preco")] ∧
    ("Price", "preco") ∈ mappingSchema operatorForm ∧
    ((∃ f : TargetField, "Price" = f.name) ∧ "preco" ≠ "") :=
  ⟨rfl,
   ((mappingSchema_spec operatorForm).1 .Price "preco").mpr ⟨by decide, rfl⟩,
   (mappingSchema_spec operatorForm).2.1 "Price" "preco"
     (((mappingSchema_spec operatorForm).1 .Price "preco").mpr ⟨by decide, rfl⟩)⟩

/-! ## Submission and editing -/

theorem getProperty_entries (form : Form) (l : List TargetField) (f : TargetField) :
    getProperty ((l.filter (fun g => decide (form g ≠ ""))).map (fun g => (g.name, form g)))
        f.name
      = if f ∈ l ∧ form f ≠ "" then some (form f) else none := by
  induction l with
  | nil => simp [getProperty]
  | cons g rest ih =>
    by_cases hg : form g = ""
    · have hfilter : (g :: rest).filter (fun g => decide (form g ≠ ""))
          = rest.filter (fun g => decide (form g ≠ "")) := by
        simp [List.filter_cons, hg]
      rw [hfilter, ih]
      by_cases hfg : f = g
      · subst hfg
        simp [hg]
      · simp [hfg]
    · have hfilter : (g :: rest).filter (fun g => decide (form g ≠ ""))
          = g :: rest.filter (fun g => decide (form g ≠ "")) := by
        simp [List.filter_cons, hg]
      rw [hfilter, List.map_cons, getProperty]
      by_cases hfg : f = g
      · subst hfg
        simp [hg]
      · have hname : ¬ g.name = f.name := fun h => hfg (TargetField.name_injective h).symm
        rw [if_neg hname, ih]
        simp [hfg]

/-- The read `mappingSchema[f]` on the schema built from a form. -/
theorem getProperty_mappingSchema (form : Form) (f : TargetField) :
    getProperty (mappingSchema form) f.name
      = if form f = "" then none else some (form f) := by
  rw [mappingSchema_eq, getProperty_entries]
  by_cases hf : form f = "" <;> simp [hf, mem_fieldOrder]

theorem handleSubmit_of_empty (page : ImportPage) (h : page.form .ProductName = "") :
    handleSubmit page = .rejected "O campo ProductName é obrigatório" := by
  have hget := getProperty_mappingSchema page.form .ProductName
  rw [if_pos h] at hget
  have hname : TargetField.ProductName.name = "ProductName" := rfl
  rw [hname] at hget
  simp [handleSubmit, hget, truthy]

theorem handleSubmit_of_filled (page : ImportPage) (h : page.form .ProductName ≠ "") :
    handleSubmit page =
      if page.templateId ≠ "" then
        .sent "PUT" (API_BASE ++ "/" ++ page.templateId)
          ⟨page.templateName, page.s3Url, mappingSchema page.form, page.isActive⟩
      else
        .sent "POST" API_BASE
          ⟨page.templateName, page.s3Url, mappingSchema page.form, page.isActive⟩ := by
  have hget := getProperty_mappingSchema page.form .ProductName
  rw [if_neg h] at hget
  have hname : TargetField.ProductName.name = "ProductName" := rfl
  rw [hname] at hget
  simp [handleSubmit, hget, truthy, h]

/-- C11: `handleSubmit` stops with its alert, before a template is built or a
request sent, exactly when the input of `ProductName` is empty; with that input
filled it sends the request whatever the other five inputs hold, empty or not;
and `suggestMappings` returns normally with `ProductName` left empty when the
sample has none of its candidate keys, the rejection being left to
`handleSubmit`. -/
theorem handleSubmit_rejects_iff (page : ImportPage) (data : JSValue) :
    ((∃ alert, handleSubmit page = .rejected alert) ↔ page.form .ProductName = "") ∧
    (page.form .ProductName ≠ "" →
      ∃ method url template, handleSubmit page = .sent method url template ∧
        template.mapping_schema = mappingSchema page.form) ∧
    (page.form .ProductName = "" →
      (∀ a ∈ mappings .ProductName, hasOwnProperty (sampleOf data) a = false) →
      ∃ form1, suggestMappings data page.form = .ok form1 ∧ form1 .ProductName = "" ∧
        ∃ alert, handleSubmit ⟨page.templateId, page.templateName, page.s3Url,
          page.isActive, form1⟩ = .rejected alert) := by
  have hsent : page.form .ProductName ≠ "" →
      ∃ method url template, handleSubmit page = .sent method url template ∧
        template.mapping_schema = mappingSchema page.form := by
    intro h
    rw [handleSubmit_of_filled page h]
    by_cases hid : page.templateId = ""
    · exact ⟨_, _, _, by rw [if_neg (not_not.mpr hid)], rfl⟩
    · exact ⟨_, _, _, by rw [if_pos hid], rfl⟩
  refine ⟨⟨?_, fun h => ⟨_, handleSubmit_of_empty page h⟩⟩, hsent, ?_⟩
  · rintro ⟨alert, halert⟩
    by_contra hne
    obtain ⟨method, url, template, hs, _⟩ := hsent hne
    rw [hs] at halert
    exact SubmitOutcome.noConfusion halert
  · intro hempty hnone
    obtain ⟨form1, h1, hval⟩ := suggestMappings_apply data page.form
    have hfind : (mappings .ProductName).find? (hasOwnProperty (sampleOf data)) = none := by
      rw [List.find?_eq_none]
      intro a ha
      simp [hnone a ha]
    have hpn : form1 .ProductName = "" := by
      rw [hval, if_pos hempty, hfind]
      rfl
    exact ⟨form1, h1, hpn, _, handleSubmit_of_empty _ hpn⟩

theorem handleSubmit_rejects_iff_witness :
    ((∃ alert, handleSubmit (pageOf emptyForm) = .rejected alert) ↔
      (pageOf emptyForm).form .ProductName = "") ∧
    (setValue emptyForm .ProductName "title" .ProductName ≠ "" ∧
      ∃ method url template,
        handleSubmit (pageOf (setValue emptyForm .ProductName "title"))
          = .sent method url template ∧
        template.mapping_schema = [("ProductName", "title")]) ∧
    (((pageOf emptyForm).form .ProductName = "" ∧
      ∀ a ∈ mappings .ProductName, hasOwnProperty (sampleOf JSValue.null) a = false) ∧
      ∃ form1, suggestMappings .null (pageOf emptyForm).form = .ok form1 ∧
        form1 .ProductName = "" ∧
        ∃ alert, handleSubmit ⟨(pageOf emptyForm).templateId, (pageOf emptyForm).templateName,
          (pageOf emptyForm).s3Url, (pageOf emptyForm).isActive, form1⟩ = .rejected alert) :=
  ⟨(handleSubmit_rejects_iff (pageOf emptyForm) .null).1,
   ⟨by decide,
    (handleSubmit_rejects_iff (pageOf (setValue emptyForm .ProductName "title")) .null).2.1
      (by decide)⟩,
   ⟨⟨rfl, by decide⟩,
    (handleSubmit_rejects_iff (pageOf emptyForm) .null).2.2 rfl (by decide)⟩⟩

theorem mappingInput?_name (f : TargetField) : mappingInput? f.name = some f := by
  cases f <;> rfl

theorem mappingInput?_eq_some {field : String} {f : TargetField}
    (h : mappingInput? field = some f) : f.name = field := by
  have := List.find?_some h
  simpa using this

theorem mappingInput?_eq_none {field : String} (h : mappingInput? field = none)
    (f : TargetField) : ¬ f.name = field := by
  intro hf
  rw [← hf, mappingInput?_name] at h
  exact Option.noConfusion h

theorem getProperty_eq_none {mapping : List (String × String)} {key : String}
    (h : key ∉ mapping.map Prod.fst) : getProperty mapping key = none := by
  induction mapping with
  | nil => rfl
  | cons p rest ih =>
    obtain ⟨k, v⟩ := p
    simp only [List.map_cons, List.mem_cons, not_or] at h
    have hk : ¬ k = key := fun hk => h.1 hk.symm
    rw [getProperty, if_neg hk]
    exact ih h.2

/-- The content of the input of `f` after the loop of `editTemplate`: the stored
value when the mapping has the key, else whatever the input held before. -/
theorem editTemplateFill_apply (mapping : List (String × String)) (form : Form)
    (f : TargetField) (hnodup : (mapping.map Prod.fst).Nodup) :
    editTemplateFill mapping form f = (getProperty mapping f.name).getD (form f) := by
  induction mapping generalizing form with
  | nil => rfl
  | cons p rest ih =>
    obtain ⟨k, v⟩ := p
    rw [List.map_cons, List.nodup_cons] at hnodup
    rw [editTemplateFill]
    cases hin : mappingInput? k with
    | none =>
      have hk : ¬ k = f.name := fun hk => mappingInput?_eq_none hin f hk.symm
      simp only [getProperty, if_neg hk]
      exact ih form hnodup.2
    | some g =>
      have hg := mappingInput?_eq_some hin
      simp only []
      rw [ih _ hnodup.2]
      by_cases hfg : f = g
      · subst hfg
        rw [getProperty, if_pos hg.symm, getProperty_eq_none (hg ▸ hnodup.1)]
        simp [setValue]
      · have hk : ¬ k = f.name := fun hk =>
          hfg (TargetField.name_injective (hg.trans hk)).symm
        simp [getProperty, hk, setValue, hfg]

/-- After `resetForm`, that is from six empty inputs, editing does restore a
stored mapping: the schema `handleSubmit` would build has, under every key, what
the stored mapping has. -/
theorem editTemplateFill_emptyForm (mapping : List (String × String))
    (hnodup : (mapping.map Prod.fst).Nodup)
    (hkeys : ∀ p ∈ mapping, ∃ f : TargetField, f.name = p.1)
    (hvalues : ∀ p ∈ mapping, p.2 ≠ "") (key : String) :
    getProperty (mappingSchema (editTemplateFill mapping emptyForm)) key
      = getProperty mapping key := by
  have hvalue : ∀ (m : List (String × String)) (k v : String),
      (∀ p ∈ m, p.2 ≠ "") → getProperty m k = some v → v ≠ "" := by
    intro m
    induction m with
    | nil => intro k v _ h; exact Option.noConfusion h
    | cons p rest ih =>
      obtain ⟨k1, v1⟩ := p
      intro k v hm h
      rw [getProperty] at h
      by_cases hk : k1 = k
      · rw [if_pos hk] at h
        have := hm (k1, v1) (List.mem_cons_self _ _)
        exact (Option.some.inj h) ▸ this
      · rw [if_neg hk] at h
        exact ih k v (fun p hp => hm p (List.mem_cons_of_mem _ hp)) h
  by_cases hkey : ∃ f : TargetField, f.name = key
  · obtain ⟨f, rfl⟩ := hkey
    rw [getProperty_mappingSchema, editTemplateFill_apply mapping emptyForm f hnodup]
    cases hget : getProperty mapping f.name with
    | none => simp [emptyForm]
    | some v => simp [hvalue mapping f.name v hvalues hget]
  · have hleft : key ∉ (mappingSchema (editTemplateFill mapping emptyForm)).map Prod.fst := by
      rw [mappingSchema_eq]
      simp only [List.map_map, List.mem_map, not_exists, not_and]
      intro g _ hg
      exact hkey ⟨g, hg⟩
    have hright : key ∉ mapping.map Prod.fst := by
      simp only [List.mem_map, not_exists, not_and]
      intro p hp hpk
      obtain ⟨f, hf⟩ := hkeys p hp
      exact hkey ⟨f, hf.trans hpk⟩
    rw [getProperty_eq_none hleft, getProperty_eq_none hright]

/-- C13 fails on the code: `editTemplate` writes only the inputs whose key the
stored mapping has and clears no other.  With the price input holding `preco`
from earlier work on the page and the stored mapping `{"ProductName": "title"}`,
the price input still holds `preco` after the fill, and the schema that
`handleSubmit` builds has the key `Price`, which the stored mapping lacks. -/
theorem editTemplate_keeps_stale_input :
    getProperty titleMapping "Price" = none ∧
    editTemplateFill titleMapping operatorForm .Price = "preco" ∧
    mappingSchema (editTemplateFill titleMapping operatorForm)
      = [("ProductName", "title"), ("Price", "preco")] ∧
    getProperty (mappingSchema (editTemplateFill titleMapping operatorForm)) "Price"
      = some "preco" ∧
    mappingSchema (editTemplateFill titleMapping emptyForm) = titleMapping :=
  ⟨rfl, rfl, rfl, rfl, rfl⟩

end ImportJs

namespace TemplatesJs

open ImportJs (JSValue isArray)

/-! ## Validation in `saveTemplate` -/

theorem orNull_eq_none {value : String} (h : value = "") : orNull value = none := by
  simp [orNull, h]

theorem orNull_eq_some {value : String} (h : value ≠ "") : orNull value = some value := by
  simp [orNull, h]

theorem isArray_iff (v : JSValue) : isArray v = true ↔ ∃ items, v = .array items := by
  cases v <;> simp [isArray]

theorem saveRequest_sent (page : TemplateForm) :
    ∃ method url data, saveRequest page = .sent method url data :=
  ⟨_, _, _, rfl⟩

/-- The outcome of `saveTemplate` by cases on the two texts. -/
theorem saveTemplate_cases (parse : String → Option JSValue) (page : TemplateForm) :
    (parse page.messageSchema = none →
      saveTemplate parse page
        = .rejected "Schema da mensagem inválido! Deve ser um JSON válido.") ∧
    (parse page.messageSchema ≠ none → page.detailsFields = "" →
      saveTemplate parse page = saveRequest page) ∧
    (parse page.messageSchema ≠ none → page.detailsFields ≠ "" →
      parse page.detailsFields = none →
      saveTemplate parse page
        = .rejected "Campos para busca inválido! Deve ser um array JSON válido.") ∧
    (∀ v, parse page.messageSchema ≠ none → page.detailsFields ≠ "" →
      parse page.detailsFields = some v → isArray v = false →
      saveTemplate parse page
        = .rejected
            "Campos para busca deve ser um array JSON! Ex: [\"brand\", \"category\"]") ∧
    (∀ v, parse page.messageSchema ≠ none → page.detailsFields ≠ "" →
      parse page.detailsFields = some v → isArray v = true →
      saveTemplate parse page = saveRequest page) := by
  refine ⟨?_, ?_, ?_, ?_, ?_⟩
  · intro h
    simp [saveTemplate, h]
  · intro h hd
    cases hm : parse page.messageSchema with
    | none => exact absurd hm h
    | some w => simp [saveTemplate, hm, orNull_eq_none hd]
  · intro h hd hp
    cases hm : parse page.messageSchema with
    | none => exact absurd hm h
    | some w => simp [saveTemplate, hm, orNull_eq_some hd, hp]
  · intro v h hd hp hv
    cases hm : parse page.messageSchema with
    | none => exact absurd hm h
    | some w => simp [saveTemplate, hm, orNull_eq_some hd, hp, hv]
  · intro v h hd hp hv
    cases hm : parse page.messageSchema with
    | none => exact absurd hm h
    | some w => simp [saveTemplate, hm, orNull_eq_some hd, hp, hv]

/-- C12: `saveTemplate` sends its request exactly when the text of
`messageSchema` parses as JSON and the text of `detailsFields` is empty or
parses as JSON with an array as its top-level value; when `messageSchema` does
not parse, or `detailsFields` is non-empty and either does not parse or parses
to something that is not an array, it stops with an alert and sends nothing. -/
theorem saveTemplate_sends_iff (parse : String → Option JSValue) (page : TemplateForm) :
    ((∃ method url data, saveTemplate parse page = .sent method url data) ↔
      (parse page.messageSchema ≠ none ∧
        (page.detailsFields = "" ∨
          ∃ items, parse page.detailsFields = some (.array items)))) ∧
    ((parse page.messageSchema = none ∨
        (page.detailsFields ≠ "" ∧
          (parse page.detailsFields = none ∨
            ∃ v, parse page.detailsFields = some v ∧ isArray v = false))) →
      ∃ alert, saveTemplate parse page = .rejected alert) := by
  obtain ⟨hschema, hempty, hbad, hnotArray, harray⟩ := saveTemplate_cases parse page
  have hreject : (parse page.messageSchema = none ∨
        (page.detailsFields ≠ "" ∧
          (parse page.detailsFields = none ∨
            ∃ v, parse page.detailsFields = some v ∧ isArray v = false))) →
      ∃ alert, saveTemplate parse page = .rejected alert := by
    intro h
    by_cases hm : parse page.messageSchema = none
    · exact ⟨_, hschema hm⟩
    · rcases h with h | ⟨hd, hp | ⟨v, hp, hv⟩⟩
      · exact absurd h hm
      · exact ⟨_, hbad hm hd hp⟩
      · exact ⟨_, hnotArray v hm hd hp hv⟩
  refine ⟨⟨?_, ?_⟩, hreject⟩
  · rintro ⟨method, url, data, hsent⟩
    have hno : ¬ ∃ alert, saveTemplate parse page = .rejected alert := by
      rintro ⟨alert, halert⟩
      rw [hsent] at halert
      exact SaveOutcome.noConfusion halert
    by_cases hm : parse page.messageSchema = none
    · exact absurd (hreject (Or.inl hm)) hno
    · refine ⟨hm, ?_⟩
      by_cases hd : page.detailsFields = ""
      · exact Or.inl hd
      · right
        cases hp : parse page.detailsFields with
        | none => exact absurd (hreject (Or.inr ⟨hd, Or.inl hp⟩)) hno
        | some v =>
          cases hv : isArray v with
          | false => exact absurd (hreject (Or.inr ⟨hd, Or.inr ⟨v, hp, hv⟩⟩)) hno
          | true =>
            obtain ⟨items, rfl⟩ := (isArray_iff v).mp hv
            exact ⟨items, rfl⟩
  · rintro ⟨hm, hd | ⟨items, hp⟩⟩
    · rw [hempty hm hd]
      exact saveRequest_sent page
    · by_cases hd : page.detailsFields = ""
      · rw [hempty hm hd]
        exact saveRequest_sent page
      · rw [harray _ hm hd hp rfl]
        exact saveRequest_sent page

theorem saveTemplate_sends_iff_witness :
    ((parseExamples "1" ≠ none ∧ parseExamples "[\"brand\"]" = some (.array [.string "brand"])) ∧
      ∃ method url data,
        saveTemplate parseExamples (dialogOf "[\"brand\"]" "1") = .sent method url data) ∧
    (parseExamples "oops" = none ∧
      ∃ alert, saveTemplate parseExamples (dialogOf "" "oops") = .rejected alert) ∧
    (("oops" ≠ "" ∧ parseExamples "oops" = none) ∧
      ∃ alert, saveTemplate parseExamples (dialogOf "oops" "1") = .rejected alert) ∧
    (("\"x\"" ≠ "" ∧ parseExamples "\"x\"" = some (.string "x") ∧
        isArray (.string "x") = false) ∧
      ∃ alert, saveTemplate parseExamples (dialogOf "\"x\"" "1") = .rejected alert) :=
  ⟨⟨⟨fun h => Option.noConfusion h, rfl⟩,
    (saveTemplate_sends_iff parseExamples (dialogOf "[\"brand\"]" "1")).1.mpr
      ⟨fun h => Option.noConfusion h, Or.inr ⟨_, rfl⟩⟩⟩,
   ⟨rfl, (saveTemplate_sends_iff parseExamples (dialogOf "" "oops")).2 (Or.inl rfl)⟩,
   ⟨⟨by decide, rfl⟩,
    (saveTemplate_sends_iff parseExamples (dialogOf "oops" "1")).2
      (Or.inr ⟨by decide, Or.inl rfl⟩)⟩,
   ⟨⟨by decide, rfl, rfl⟩,
    (saveTemplate_sends_iff parseExamples (dialogOf "\"x\"" "1")).2
      (Or.inr ⟨by decide, Or.inr ⟨_, rfl, rfl⟩⟩)⟩⟩

end TemplatesJs

namespace DashboardJs

/-! ## `animateValue` -/

theorem increment_self (start : Int) (duration : ℚ) : increment start start duration = 0 := by
  simp [increment]

theorem tick_zero (endValue : Int) (s : Animation) (h : s.cleared = false) :
    tick endValue 0 s = ⟨s.current, some (Int.floor s.current), false⟩ := by
  simp [tick, h]

/-- With `start` equal to `end` the counter stays put and the timer stays set. -/
theorem animateValue_self (start : Int) (duration : ℚ) (n : Nat) :
    animateValue start start duration (n + 1) = ⟨start, some start, false⟩ := by
  induction n with
  | zero =>
    rw [animateValue, increment_self, animateValue, tick_zero _ _ rfl]
    simp
  | succ n ih =>
    rw [animateValue, increment_self, ih, tick_zero _ _ rfl]
    simp

/-- C14 fails on the code: in the call `animateValue(id, 0, 0, 1000)` the
increment is 0, neither test of the callback ever holds, and after every number
of ticks the timer is still set (the element showing 0); the same holds for
every call whose `start` equals its `end`, whatever the duration. -/
theorem animateValue_equal_never_cleared :
    (∀ n, (animateValue 0 0 1000 n).cleared = false ∧
      (animateValue 0 0 1000 (n + 1)).textContent = some 0) ∧
    ∀ (start : Int) (duration : ℚ) (n : Nat),
      (animateValue start start duration n).cleared = false := by
  have hall : ∀ (start : Int) (duration : ℚ) (n : Nat),
      (animateValue start start duration n).cleared = false := by
    intro start duration n
    cases n with
    | zero => rfl
    | succ n => rw [animateValue_self]
  exact ⟨fun n => ⟨hall 0 1000 n, by rw [animateValue_self]⟩, hall⟩

theorem tick_cleared (endValue : Int) (inc : ℚ) (s : Animation) (h : s.cleared = true) :
    tick endValue inc s = s := by
  simp [tick, h]

theorem tick_running (endValue : Int) (inc : ℚ) (s : Animation) (h : s.cleared = false) :
    ((inc > 0 ∧ s.current + inc ≥ endValue) ∨ (inc < 0 ∧ s.current + inc ≤ endValue) →
      tick endValue inc s = ⟨endValue, some endValue, true⟩) ∧
    (¬ ((inc > 0 ∧ s.current + inc ≥ endValue) ∨ (inc < 0 ∧ s.current + inc ≤ endValue)) →
      tick endValue inc s = ⟨s.current + inc, some (Int.floor (s.current + inc)), false⟩) := by
  constructor
  · intro hc
    have : ((decide (inc > 0) && decide (s.current + inc ≥ endValue)) ||
        (decide (inc < 0) && decide (s.current + inc ≤ endValue))) = true := by
      simpa using hc
    simp only [tick, h, Bool.false_eq_true, if_false, this, if_true, Int.floor_intCast]
  · intro hc
    have : ((decide (inc > 0) && decide (s.current + inc ≥ endValue)) ||
        (decide (inc < 0) && decide (s.current + inc ≤ endValue))) = false := by
      rw [Bool.eq_false_iff]
      simpa using hc
    simp only [tick, h, Bool.false_eq_true, if_false, this]

/-- A cleared timer has left the counter and the element at `end`. -/
theorem animateValue_cleared (start endValue : Int) (duration : ℚ) (n : Nat)
    (h : (animateValue start endValue duration n).cleared = true) :
    (animateValue start endValue duration n).current = endValue ∧
    (animateValue start endValue duration n).textContent = some endValue := by
  induction n with
  | zero => exact absurd h (by simp [animateValue])
  | succ n ih =>
    rw [animateValue] at h ⊢
    cases hc : (animateValue start endValue duration n).cleared with
    | true =>
      rw [tick_cleared _ _ _ hc]
      exact ih hc
    | false =>
      obtain ⟨hyes, hno⟩ := tick_running endValue (increment start endValue duration) _ hc
      by_cases hcond :
          (increment start endValue duration > 0 ∧
            (animateValue start endValue duration n).current
              + increment start endValue duration ≥ endValue) ∨
          (increment start endValue duration < 0 ∧
            (animateValue start endValue duration n).current
              + increment start endValue duration ≤ endValue)
      · rw [hyes hcond]
        exact ⟨rfl, rfl⟩
      · rw [hno hcond] at h
        exact absurd h (by simp)

/-- While the timer is set the counter has advanced by one increment a tick,
and no tick so far has met either test. -/
theorem animateValue_running (start endValue : Int) (duration : ℚ) (n : Nat)
    (h : (animateValue start endValue duration n).cleared = false) :
    (animateValue start endValue duration n).current
        = start + n * increment start endValue duration ∧
    (0 < n →
      ¬ ((increment start endValue duration > 0 ∧
            (start : ℚ) + n * increment start endValue duration ≥ endValue) ∨
         (increment start endValue duration < 0 ∧
            (start : ℚ) + n * increment start endValue duration ≤ endValue))) := by
  induction n with
  | zero => exact ⟨by simp [animateValue], fun h0 => absurd h0 (by decide)⟩
  | succ n ih =>
    rw [animateValue] at h ⊢
    cases hc : (animateValue start endValue duration n).cleared with
    | true =>
      rw [tick_cleared _ _ _ hc] at h
      rw [hc] at h
      exact absurd h (by decide)
    | false =>
      obtain ⟨hcur, _⟩ := ih hc
      obtain ⟨hyes, hno⟩ := tick_running endValue (increment start endValue duration) _ hc
      have hsum : (start : ℚ) + ((n + 1 : ℕ) : ℚ) * increment start endValue duration
          = (animateValue start endValue duration n).current
              + increment start endValue duration := by
        rw [hcur]
        push_cast
        ring
      by_cases hcond :
          (increment start endValue duration > 0 ∧
            (animateValue start endValue duration n).current
              + increment start endValue duration ≥ endValue) ∨
          (increment start endValue duration < 0 ∧
            (animateValue start endValue duration n).current
              + increment start endValue duration ≤ endValue)
      · rw [hyes hcond] at h
        exact absurd h (by simp)
      · rw [hno hcond]
        refine ⟨hsum.symm, fun _ => ?_⟩
        rw [hsum]
        exact hcond

/-- In exact arithmetic, a call with `start` different from `end` and a
positive duration does clear its timer, with the element showing `end`. -/
theorem animateValue_reaches_end (start endValue : Int) (duration : ℚ)
    (hd : 0 < duration) (hne : start ≠ endValue) :
    ∃ n, (animateValue start endValue duration n).cleared = true ∧
      (animateValue start endValue duration n).textContent = some endValue := by
  by_contra hnot
  have hrun : ∀ n, (animateValue start endValue duration n).cleared = false := by
    intro n
    cases hc : (animateValue start endValue duration n).cleared with
    | false => rfl
    | true => exact absurd ⟨n, hc, (animateValue_cleared _ _ _ n hc).2⟩ hnot
  have hpos : 0 < duration / 16 := by positivity
  have hceil : duration / 16 ≤ ((⌈duration / 16⌉₊ + 1 : ℕ) : ℚ) := by
    have := Nat.le_ceil (duration / 16)
    push_cast
    linarith
  have hmul : increment start endValue duration * (duration / 16)
      = (endValue : ℚ) - start := by
    rw [increment]
    push_cast
    field_simp
  obtain ⟨_, hno⟩ := animateValue_running start endValue duration (⌈duration / 16⌉₊ + 1)
    (hrun _)
  apply hno (Nat.succ_pos _)
  rcases lt_or_gt_of_ne hne with hlt | hgt
  · left
    have hlt1 : (start : ℚ) < endValue := by exact_mod_cast hlt
    have hinc : 0 < increment start endValue duration := by
      by_contra hle
      have := mul_nonpos_of_nonpos_of_nonneg (not_lt.mp hle) hpos.le
      linarith
    refine ⟨hinc, ?_⟩
    have := mul_le_mul_of_nonneg_right hceil hinc.le
    nlinarith
  · right
    have hgt1 : (endValue : ℚ) < start := by exact_mod_cast hgt
    have hinc : increment start endValue duration < 0 := by
      by_contra hle
      have := mul_nonneg (not_lt.mp hle) hpos.le
      linarith
    refine ⟨hinc, ?_⟩
    have := mul_le_mul_of_nonpos_right hceil hinc.le
    nlinarith

/-! ## `formatDate` -/

/-- C15: with `d = now - date` in milliseconds, `formatDate` returns `Agora` for
every `d < 60000`, negative `d` included; for `60000 ≤ d < 3600000` it returns
`<m>m atrás` with `m` the floor of `d / 60000`, between 1 and 59; for
`3600000 ≤ d < 86400000` it returns `<h>h atrás` with `h` the floor of
`d / 3600000`, between 1 and 23; from `d = 86400000` on, and only then, it
returns the absolute date text.  The integer quotients of the statement are the
floors of the rational quotients (last part). -/
theorem formatDate_spec (now date : Int) (localeDate : String) :
    (now - date < 60000 → formatDate now date localeDate = "Agora") ∧
    (60000 ≤ now - date → now - date < 3600000 →
      formatDate now date localeDate = toString ((now - date) / 60000) ++ "m atrás" ∧
        1 ≤ (now - date) / 60000 ∧ (now - date) / 60000 ≤ 59) ∧
    (3600000 ≤ now - date → now - date < 86400000 →
      formatDate now date localeDate = toString ((now - date) / 3600000) ++ "h atrás" ∧
        1 ≤ (now - date) / 3600000 ∧ (now - date) / 3600000 ≤ 23) ∧
    (86400000 ≤ now - date → formatDate now date localeDate = localeDate) ∧
    (now - date < 86400000 →
      ∀ other, formatDate now date other = formatDate now date localeDate) ∧
    ((now - date) / 60000 = Int.floor (((now - date : Int) : ℚ) / 60000) ∧
      (now - date) / 3600000 = Int.floor (((now - date : Int) : ℚ) / 3600000)) := by
  have hmins : Int.floor (((now - date : Int) : ℚ) / 60000) = (now - date) / 60000 := by
    have := Rat.floor_intCast_div_natCast (now - date) 60000
    simpa using this
  have hhours : Int.floor (((now - date : Int) : ℚ) / 3600000) = (now - date) / 3600000 := by
    have := Rat.floor_intCast_div_natCast (now - date) 3600000
    simpa using this
  refine ⟨?_, ?_, ?_, ?_, ?_, ⟨hmins.symm, hhours.symm⟩⟩
  · intro h
    have h1 : (now - date) / 60000 < 1 := by omega
    simp only [formatDate, if_pos h1]
  · intro hlo hhi
    have h1 : ¬ (now - date) / 60000 < 1 := by omega
    have h2 : (now - date) / 60000 < 60 := by omega
    refine ⟨by simp only [formatDate, if_neg h1, if_pos h2], by omega, by omega⟩
  · intro hlo hhi
    have h1 : ¬ (now - date) / 60000 < 1 := by omega
    have h2 : ¬ (now - date) / 60000 < 60 := by omega
    have h3 : (now - date) / 3600000 < 24 := by omega
    refine ⟨by simp only [formatDate, if_neg h1, if_neg h2, if_pos h3], by omega, by omega⟩
  · intro hlo
    have h1 : ¬ (now - date) / 60000 < 1 := by omega
    have h2 : ¬ (now - date) / 60000 < 60 := by omega
    have h3 : ¬ (now - date) / 3600000 < 24 := by omega
    simp only [formatDate, if_neg h1, if_neg h2, if_neg h3]
  · intro hhi other
    simp only [formatDate]
    split_ifs <;> first | rfl | omega

theorem formatDate_spec_witness :
    ((1700000000000 : Int) - 1700000005000 < 60000 ∧
      formatDate 1700000000000 1700000005000 "05/11/2026, 10:00" = "Agora") ∧
    (((60000 : Int) ≤ 1700000125000 - 1700000000000 ∧
        (1700000125000 : Int) - 1700000000000 < 3600000) ∧
      formatDate 1700000125000 1700000000000 "05/11/2026, 10:00" = "2m atrás") ∧
    (((3600000 : Int) ≤ 1700086399999 - 1700000000000 ∧
        (1700086399999 : Int) - 1700000000000 < 86400000) ∧
      formatDate 1700086399999 1700000000000 "05/11/2026, 10:00" = "23h atrás") ∧
    ((86400000 : Int) ≤ 1700086400000 - 1700000000000 ∧
      formatDate 1700086400000 1700000000000 "05/11/2026, 10:00" = "05/11/2026, 10:00") ∧
    ((1700000125000 : Int) - 1700000000000 < 86400000 ∧
      formatDate 1700000125000 1700000000000 "" =
        formatDate 1700000125000 1700000000000 "05/11/2026, 10:00") :=
  ⟨⟨by decide, (formatDate_spec 1700000000000 1700000005000 _).1 (by decide)⟩,
   ⟨⟨by decide, by decide⟩,
    ((formatDate_spec 1700000125000 1700000000000 "05/11/2026, 10:00").2.1
      (by decide) (by decide)).1.trans (by decide)⟩,
   ⟨⟨by decide, by decide⟩,
    ((formatDate_spec 1700086399999 1700000000000 "05/11/2026, 10:00").2.2.1
      (by decide) (by decide)).1.trans (by decide)⟩,
   ⟨by decide, (formatDate_spec 1700086400000 1700000000000 _).2.2.2.1 (by decide)⟩,
   ⟨by decide,
    (formatDate_spec 1700000125000 1700000000000 "05/11/2026, 10:00").2.2.2.2.1
      (by decide) ""⟩⟩

end DashboardJs
